import Mathlib

/-!
Verification development for the DataArt repository.

The repository normalizes news/government-document feeds into
`{ source, changes: [{from, to}] }` entries and redacts text with two
heuristics:

* a placeholder variant (`GDGParser.createRedactedVersion` in
  `gdg_parser.js`, and a standalone copy in the sketch file) that splits a
  string on whitespace and replaces every token matching one of eleven
  sensitive regex patterns with `[REDACTED]`;
* a paraphrase variant (`GDGParser.createRedactedVersion` in the XML-feed
  parser file) that rewrites percentages, numbers, location names and
  strong words to softer phrases with sequential global regex replaces.

Strings are modelled as `List Char` (`String.data`), and the JavaScript
regex operations used by the code are modelled by executable scanners that
implement the same matching semantics (`\b` word boundaries over the ASCII
word characters `[A-Za-z0-9_]`, case-insensitive comparison on ASCII
letters, leftmost-match global replacement).
-/

/-- ASCII whitespace as matched by the JavaScript `\s` class on the inputs
this code handles: space, tab, newline, carriage return, vertical tab and
form feed. -/
def isWs (c : Char) : Bool :=
  c == ' ' || c == '\t' || c == '\n' || c == '\r' || c == '\x0B' || c == '\x0C'

/-- JavaScript word characters `\w = [A-Za-z0-9_]`, the alphabet used by
the `\b` word-boundary assertion. -/
def isWordChar (c : Char) : Bool :=
  c.isAlpha || c.isDigit || c == '_'

/-- Case-insensitive character comparison (ASCII case folding), modelling
the `i` regex flag. -/
def lowerEq (a b : Char) : Bool :=
  a.toLower == b.toLower

/-- `matchesAt kw l` holds when `kw` is a case-insensitive prefix of `l`. -/
def matchesAt : List Char → List Char → Bool
  | [], _ => true
  | _ :: _, [] => false
  | k :: ks, c :: cs => lowerEq k c && matchesAt ks cs

/-- Word boundary after a match that ends in a word character: the rest of
the input must be empty or start with a non-word character. -/
def endBoundary : List Char → Bool
  | [] => true
  | c :: _ => !isWordChar c

/-- Core scanner for JavaScript `String.prototype.split(/\s+/)`.
The state is `some acc` while a token is being accumulated (in reverse) and
`none` while a maximal whitespace run (one separator match) is being
consumed.  As in JavaScript, a leading separator yields an initial empty
token and a trailing separator yields a final empty token. -/
def splitWsCore : List Char → Option (List Char) → List (List Char)
  | [], some acc => [acc.reverse]
  | [], none => [[]]
  | c :: rest, some acc =>
    if isWs c then acc.reverse :: splitWsCore rest none
    else splitWsCore rest (some (c :: acc))
  | c :: rest, none =>
    if isWs c then splitWsCore rest none
    else splitWsCore rest (some [c])

/-- JavaScript `text.split(/\s+/)` on the character list of `text`. -/
def splitWs (l : List Char) : List (List Char) := splitWsCore l (some [])

/-- JavaScript `Array.prototype.join(' ')`. -/
def joinSp : List (List Char) → List Char
  | [] => []
  | [w] => w
  | w :: v :: ts => w ++ ' ' :: joinSp (v :: ts)

/-- Scanner for `pattern.test(word)` where the pattern is a case-insensitive
alternation of keywords wrapped in `\b...\b`: search for an occurrence of
`kw` preceded by a non-word character (or the start, tracked by the
`prevWord` flag) and followed by a non-word character (or the end).  All
keywords consist of word characters, so this is exactly the `\b` semantics. -/
def findWordCIGo (kw : List Char) : Bool → List Char → Bool
  | _, [] => false
  | prevWord, c :: cs =>
    (!prevWord && matchesAt kw (c :: cs) && endBoundary ((c :: cs).drop kw.length))
    || findWordCIGo kw (isWordChar c) cs

/-- `new RegExp("\\b" + kw + "\\b", "i").test(w)` for a keyword `kw` made of
word characters. -/
def findWordCI (kw w : List Char) : Bool := findWordCIGo kw false w

/-- Decide whether a character list is a nonempty run of ASCII digits. -/
def allDigits (l : List Char) : Bool := !l.isEmpty && l.all (·.isDigit)

/-- After the leading digit run of a candidate number, the remainder must be
zero or more `,ddd` groups followed by an optional `.d+` fraction reaching
the end: the tail language of `\d+(?:,\d{3})*(?:\.\d+)?`. -/
def groupsFrac : List Char → Bool
  | [] => true
  | ',' :: a :: b :: c :: rest =>
    a.isDigit && b.isDigit && c.isDigit && groupsFrac rest
  | '.' :: rest => allDigits rest
  | _ => false

/-- Membership in the number language `\d+(?:,\d{3})*(?:\.\d+)?`.  Inside
the language the leading `\d+` is forced to be the maximal digit run (a
shorter run would be followed by a digit, which neither `,` group, `.`
fraction nor end-of-match allows), so the deterministic parse is complete. -/
def numLang (s : List Char) : Bool :=
  let d := s.takeWhile (·.isDigit)
  !d.isEmpty && groupsFrac (s.drop d.length)

/-- Does a match of the number pattern start at the head of `l`?  The regex
engine accepts iff some prefix of `l` is in the number language with a word
boundary after it; all prefix lengths are enumerated. -/
def numStartsHere (l : List Char) : Bool :=
  (List.range l.length).any fun k =>
    numLang (l.take (k + 1)) && endBoundary (l.drop (k + 1))

/-- Scanner for `/\b(?:\d+(?:,\d{3})*(?:\.\d+)?)\b/.test(w)`: a match may
start at any position whose previous character is not a word character. -/
def numTestGo : Bool → List Char → Bool
  | _, [] => false
  | prevWord, c :: cs =>
    (!prevWord && numStartsHere (c :: cs)) || numTestGo (isWordChar c) cs

/-- `/\b(?:\d+(?:,\d{3})*(?:\.\d+)?)\b/.test(w)`. -/
def numTest (w : List Char) : Bool := numTestGo false w

/-- The ten keyword alternation patterns of `sensitivePatterns` in
`createRedactedVersion` (`gdg_parser.js` lines 130-141 and the identical
sketch-file copy), in source order. -/
def sensitiveKeywords : List (List String) :=
  [ ["classified", "confidential", "secret"],
    ["casualties", "deaths", "injured", "wounded"],
    ["corruption", "fraud", "misconduct", "violation"],
    ["investigation", "probe", "inquiry"],
    ["failure", "mistake", "error", "incident"],
    ["protest", "unrest", "riot", "demonstration"],
    ["intelligence", "surveillance", "operation"],
    ["weapon", "military", "defense", "police", "security"],
    ["government", "official", "authority"],
    ["city", "town", "village", "district", "region"] ]

/-- `sensitivePatterns.some(pattern => pattern.test(word))`: the word
matches one of the ten keyword patterns or the number pattern. -/
def sensitiveMatch (w : List Char) : Bool :=
  sensitiveKeywords.any (fun g => g.any fun kw => findWordCI kw.data w) || numTest w

/-- The per-token map of the placeholder redaction: a token matching a
sensitive pattern becomes `[REDACTED]`, any other token is unchanged. -/
def redactWord (w : List Char) : List Char :=
  if sensitiveMatch w then "[REDACTED]".data else w

/-- The split/map/join pipeline shared by both placeholder-variant
implementations, and also exactly the transformation described by the
specification sentence: split on whitespace runs, map each token to
`[REDACTED]` exactly when it matches a sensitive pattern, rejoin with
single spaces. -/
def redactSpec (l : List Char) : List Char :=
  joinSp ((splitWs l).map redactWord)

/-- `GDGParser.createRedactedVersion` (`gdg_parser.js` lines 126-158):
`if (!text) return '';` then split on `/\s+/`, map tokens through the
sensitive-pattern check, and `join(' ')`. -/
def createRedactedVersion (text : String) : String :=
  if text = "" then ""
  else String.mk (joinSp ((splitWs text.data).map redactWord))

/-- The standalone `createRedactedVersion` of the sketch file
(`src/unnamed/part_000`): identical to the parser method except that a
falsy (empty) input returns `'Information redacted'`. -/
def sketchCreateRedactedVersion (text : String) : String :=
  if text = "" then "Information redacted"
  else String.mk (joinSp ((splitWs text.data).map redactWord))

/-! ### Paraphrase-variant redaction (XML-feed parser file, lines 195-223)

The XML-feed variant of `createRedactedVersion` applies sequential global
regex replacements.  Each replacement is modelled by a left-to-right
scanner over the original characters; replacement text is spliced in
without being rescanned by the same call (as in JavaScript), while later
calls do scan it.  The scanners are driven by a fuel argument initialised
to more than the input length; every step consumes at least one input
character and one unit of fuel, so the fuel never runs out. -/

/-- Global replacement scanner for `new RegExp("\\b" + kw + "\\b", "gi")`
where `kw` consists of word characters: at each position whose previous
character is not a word character, a case-insensitive occurrence of `kw`
followed by a word boundary is replaced by `repl`, and scanning resumes
after the matched text (whose last character is a word character). -/
def replaceWordCIAllGo (kw repl : List Char) : Nat → Bool → List Char → List Char
  | 0, _, l => l
  | _ + 1, _, [] => []
  | fuel + 1, prevWord, c :: cs =>
    if !prevWord && matchesAt kw (c :: cs) && endBoundary ((c :: cs).drop kw.length) then
      repl ++ replaceWordCIAllGo kw repl fuel true ((c :: cs).drop kw.length)
    else
      c :: replaceWordCIAllGo kw repl fuel (isWordChar c) cs

/-- `text.replace(new RegExp("\\b" + kw + "\\b", "gi"), repl)`. -/
def replaceWordCIAll (kw repl l : List Char) : List Char :=
  replaceWordCIAllGo kw repl (l.length + 1) false l

/-- Global replacement scanner for `/\b\d+\b/g`: a match is a maximal digit
run whose neighbours are non-word characters (a shorter run would be
followed by a digit, failing the trailing `\b`). -/
def replaceNumAllGo (repl : List Char) : Nat → Bool → List Char → List Char
  | 0, _, l => l
  | _ + 1, _, [] => []
  | fuel + 1, prevWord, c :: cs =>
    if !prevWord && c.isDigit then
      let run := (c :: cs).takeWhile (·.isDigit)
      let rest := (c :: cs).drop run.length
      if endBoundary rest then repl ++ replaceNumAllGo repl fuel true rest
      else c :: replaceNumAllGo repl fuel (isWordChar c) cs
    else c :: replaceNumAllGo repl fuel (isWordChar c) cs

/-- `text.replace(/\b\d+\b/g, repl)`. -/
def replaceNumAll (repl l : List Char) : List Char :=
  replaceNumAllGo repl (l.length + 1) false l

/-- Trailing `%\b` of the percentage pattern: since `%` is not a word
character, the boundary after it holds exactly when a word character
follows. -/
def pctBoundary : List Char → Bool
  | [] => false
  | c :: _ => isWordChar c

/-- Completion of a `/\b\d+(\.\d+)?%\b/` match after its maximal leading
digit run: either `.d+%` (with the fraction digits again maximal) or `%`
directly, followed by the `%\b` boundary.  Returns the remaining input on
success.  Backtracking cannot produce any other match here: a shorter digit
run would be followed by a digit, which neither `.`, `%` nor the group
start allows. -/
def pctMatchRest (r : List Char) : Option (List Char) :=
  match r with
  | '.' :: ds =>
    let frac := ds.takeWhile (·.isDigit)
    if frac.isEmpty then none
    else
      match ds.drop frac.length with
      | '%' :: tail => if pctBoundary tail then some tail else none
      | _ => none
  | '%' :: tail => if pctBoundary tail then some tail else none
  | _ => none

/-- Global replacement scanner for `/\b\d+(\.\d+)?%\b/g`.  After a match
scanning resumes after the `%`, which is not a word character. -/
def replacePctAllGo (repl : List Char) : Nat → Bool → List Char → List Char
  | 0, _, l => l
  | _ + 1, _, [] => []
  | fuel + 1, prevWord, c :: cs =>
    if !prevWord && c.isDigit then
      let run := (c :: cs).takeWhile (·.isDigit)
      match pctMatchRest ((c :: cs).drop run.length) with
      | some tail => repl ++ replacePctAllGo repl fuel false tail
      | none => c :: replacePctAllGo repl fuel (isWordChar c) cs
    else c :: replacePctAllGo repl fuel (isWordChar c) cs

/-- `text.replace(/\b\d+(\.\d+)?%\b/g, repl)`. -/
def replacePctAll (repl l : List Char) : List Char :=
  replacePctAllGo repl (l.length + 1) false l

/-- The `locations` array of the XML-feed `createRedactedVersion`, in
source order. -/
def xmlLocations : List String :=
  ["Afghanistan", "Iraq", "Syria", "Yemen", "Libya", "Ukraine", "Russia", "China"]

/-- The `wordReplacements` object of the XML-feed `createRedactedVersion`;
`Object.entries` enumerates the pairs in insertion order. -/
def xmlWordReplacements : List (String × String) :=
  [ ("crisis", "situation"),
    ("disaster", "event"),
    ("catastrophic", "significant"),
    ("failed", "did not meet expectations"),
    ("corruption", "irregularities"),
    ("violated", "may not have followed"),
    ("illegal", "questionable"),
    ("dangerous", "concerning") ]

/-- `GDGParser.createRedactedVersion` of the XML-feed parser file
(`src/unnamed/part_001` lines 195-223): replace percentages, then bare
numbers, then each location (case-insensitively) by `'the region'`, then
each strong word by its fixed weaker counterpart, sequentially on the whole
string. -/
def xmlCreateRedactedVersion (text : String) : String :=
  let redacted := replacePctAll "a percentage".data text.data
  let redacted := replaceNumAll "several".data redacted
  let redacted := xmlLocations.foldl
    (fun acc loc => replaceWordCIAll loc.data "the region".data acc) redacted
  let redacted := xmlWordReplacements.foldl
    (fun acc p => replaceWordCIAll p.1.data p.2.data acc) redacted
  String.mk redacted

/-- First stage of the paraphrase description in the claim: every
word-bounded percentage becomes `'a percentage'`. -/
def pctStage (l : List Char) : List Char := replacePctAll "a percentage".data l

/-- Second stage: every remaining word-bounded digit sequence becomes
`'several'`. -/
def numStage (l : List Char) : List Char := replaceNumAll "several".data l

/-- Third stage: each of the eight listed location names becomes
`'the region'` (case-insensitively), in list order. -/
def locationStage (l : List Char) : List Char :=
  xmlLocations.foldl (fun acc loc => replaceWordCIAll loc.data "the region".data acc) l

/-- Fourth stage: each of the eight listed strong words becomes its fixed
weaker counterpart (case-insensitively), in list order. -/
def softenStage (l : List Char) : List Char :=
  xmlWordReplacements.foldl (fun acc p => replaceWordCIAll p.1.data p.2.data acc) l

/-- The paraphrase pipeline exactly as the specification claim words it:
percentages, then numbers, then locations, then strong words, in that
order. -/
def paraphraseSpec (text : String) : String :=
  String.mk (softenStage (locationStage (numStage (pctStage text.data))))

/-! ### Data model and feed adapters

`Change` and `Entry` model the normalized internal representation.  Fields
that JavaScript may leave `undefined` are `Option String`; the JavaScript
truthiness test on such a field is `jsTruthy` (present and nonempty).
`from` is a Lean keyword, so the `Change` fields are named `cfrom`/`cto`
(`ctype` models the optional `type: 'text'` tag some entries carry). -/

/-- `{ from, to, type? }` as pushed by the parsers. -/
structure Change where
  cfrom : Option String
  cto : Option String
  ctype : Option String
deriving Repr, DecidableEq

/-- `{ id?, source, changes }`. -/
structure Entry where
  id : Option String
  source : String
  changes : List Change
deriving Repr, DecidableEq

/-- The object returned by `parseGDGData`: `{ entries: [...] }`. -/
structure ParseResult where
  entries : List Entry
deriving Repr, DecidableEq

/-- One article of the JSON feed consumed by `gdg_parser.js`; every field
is optional. -/
structure Article where
  source : Option String
  url : Option String
  domain : Option String
  title : Option String
  description : Option String
  content : Option String
deriving Repr, DecidableEq

/-- The GDELT response object: `data.articles` is `some` list exactly when
the field is present and `Array.isArray` accepts it. -/
structure ArticlesObj where
  articles : Option (List Article)
deriving Repr, DecidableEq

/-- JavaScript truthiness of an optional string field: present and not
the empty string. -/
def jsTruthy : Option String → Bool
  | none => false
  | some s => s ≠ ""

/-- JavaScript `String.prototype.trim()` on a character list. -/
def trimL (l : List Char) : List Char :=
  ((l.dropWhile isWs).reverse.dropWhile isWs).reverse

/-- The filter predicate of `addEntry`:
`ch.from && ch.from.trim().length > 0 && ch.to && ch.to.trim().length > 0`. -/
def validChange (ch : Change) : Bool :=
  (match ch.cfrom with
   | some s => s ≠ "" && !(trimL s.data).isEmpty
   | none => false) &&
  (match ch.cto with
   | some s => s ≠ "" && !(trimL s.data).isEmpty
   | none => false)

/-- `this.maxEntries`, set to 100 in both parser constructors. -/
def maxEntries : Nat := 100

/-- `GDGParser.addEntry` (identical in `gdg_parser.js` lines 164-179 and
the XML-feed parser lines 279-295): when fewer than `maxEntries` entries
are stored and the entry has changes, drop the changes with missing or
whitespace-only text and push the entry only if some change survives. -/
def addEntry (st : List Entry) (entry : Entry) : List Entry :=
  if st.length < maxEntries then
    if entry.changes ≠ [] then
      if entry.changes.filter validChange ≠ [] then
        st ++ [{ id := entry.id, source := entry.source
               , changes := entry.changes.filter validChange }]
      else st
    else st
  else st

/-- `GDGParser.getSampleData` of `gdg_parser.js` (lines 185-210). -/
def getSampleData : ParseResult :=
  { entries :=
    [ { id := some "GDG-2018-08-27-001"
      , source := "White House Press Release"
      , changes :=
        [ { cfrom := some "The administration acknowledges serious concerns about climate change impacts."
          , cto := some "The administration is monitoring environmental conditions."
          , ctype := none } ] }
    , { id := some "GDG-2018-08-27-002"
      , source := "Department of Defense Memo"
      , changes :=
        [ { cfrom := some "Military operations resulted in 24 civilian casualties in the region."
          , cto := some "Military operations in the region are under review."
          , ctype := none } ] } ] }

/-- Strip a single leading `www.`: `hostname.replace(/^www\./, '')`. -/
def stripWww (h : List Char) : List Char :=
  if ['w', 'w', 'w', '.'].isPrefixOf h then h.drop 4 else h

/-- `GDGParser.formatUrl` (`gdg_parser.js` lines 92-99).  The browser `URL`
constructor is modelled by the oracle `host : String → Option String`
returning the parsed hostname, `none` when the constructor would throw; the
`catch` branch returns the raw url. -/
def formatUrl (host : String → Option String) (url : String) : String :=
  match host url with
  | some h => String.mk (stripWww h.data)
  | none => url

/-- `GDGParser.extractDomainFromUrl` of the XML-feed parser (lines
131-138): like `formatUrl` but the `catch` branch returns `""`. -/
def extractDomainFromUrl (host : String → Option String) (url : String) : String :=
  match host url with
  | some h => String.mk (stripWww h.data)
  | none => ""

/-- `GDGParser.extractSource` (`gdg_parser.js` lines 77-85). -/
def extractSource (host : String → Option String) (article : Article) : String :=
  if jsTruthy article.source then article.source.getD ""
  else if jsTruthy article.url then formatUrl host (article.url.getD "")
  else if jsTruthy article.domain then article.domain.getD ""
  else "News Article"

/-- The fallback chain exactly as the claim words it: the truthy `source`
field; otherwise the hostname of `url` with a leading `www.` removed (or
the raw url string when URL parsing fails); otherwise the truthy `domain`
field; otherwise the default `"News Article"`. -/
def extractSourceSpec (host : String → Option String) (article : Article) : String :=
  if jsTruthy article.source then article.source.getD ""
  else if jsTruthy article.url then
    match host (article.url.getD "") with
    | some h => String.mk (stripWww h.data)
    | none => article.url.getD ""
  else if jsTruthy article.domain then article.domain.getD ""
  else "News Article"

/-- Guard `field && field.length > 10` of `extractTextContent`: a string of
length over 10 is in particular truthy. -/
def lenOver10 : Option String → Bool
  | some s => s.length > 10
  | none => false

/-- `GDGParser.extractTextContent` (`gdg_parser.js` lines 106-119): the
first of `title`, `description`, `content` whose length exceeds 10. -/
def extractTextContent (article : Article) : Option String :=
  if lenOver10 article.title then article.title
  else if lenOver10 article.description then article.description
  else if lenOver10 article.content then article.content
  else none

/-- The article loop of `GDGParser.parseGDGData` (`gdg_parser.js` lines
31-59): iterate while `processedEntries.length < maxEntries`, build an
entry whose source comes from `extractSource`, and when text content is
found push the `{from, to, type: 'text'}` change and store the entry via
`addEntry`. -/
def processArticles (host : String → Option String) :
    List Article → List Entry → List Entry
  | [], st => st
  | article :: rest, st =>
    if st.length < maxEntries then
      let formattedEntry : Entry :=
        { id := none, source := extractSource host article, changes := [] }
      match extractTextContent article with
      | some originalText =>
        let redactedText := createRedactedVersion originalText
        let entry :=
          { formattedEntry with
            changes :=
              [ { cfrom := some originalText
                , cto := some redactedText
                , ctype := some "text" } ] }
        processArticles host rest (addEntry st entry)
      | none => processArticles host rest st
    else st

/-- `GDGParser.parseGDGData` of `gdg_parser.js` (lines 18-70).  `data` is
`none` for a null/undefined response and `some { articles := none }` when
`data.articles` is missing or not an array; both return the sample data.
`st` is the current `this.processedEntries` (initially `[]`).  Every
operation of the `try` body is total in this model — the only throwing
browser API, the `URL` constructor, is caught inside `formatUrl` — so the
`catch` branch is unreachable and no exception escapes. -/
def parseGDGData (host : String → Option String) (st : List Entry)
    (data : Option ArticlesObj) : ParseResult :=
  match data with
  | none => getSampleData
  | some d =>
    match d.articles with
    | none => getSampleData
    | some articles => { entries := processArticles host articles st }

/-! ### XML-feed parser (`src/unnamed/part_001`)

`DOMParser` and `getElementsByTagName` are browser APIs; an RSS input is
modelled by the list of `<item>` elements it yields, each with the optional
text content of its first `title`, `description` and `link` children
(`none` models a missing tag, making the `?.textContent || default`
fallbacks explicit).  `parseFromString` never throws (it produces an error
document), so the `catch` branch of this parser is again unreachable. -/

/-- One `<item>` of the RSS feed. -/
structure Item where
  title : Option String
  description : Option String
  link : Option String
deriving Repr, DecidableEq

/-- Core scanner for `replace(/\s+/g, ' ')`: collapse each whitespace run
to a single space.  The flag records whether the previous character was
part of a run already collapsed. -/
def collapseWsCore : List Char → Bool → List Char
  | [], _ => []
  | c :: rest, inRun =>
    if isWs c then
      if inRun then collapseWsCore rest true
      else ' ' :: collapseWsCore rest true
    else c :: collapseWsCore rest false

/-- `text.replace(/\s+/g, ' ')`. -/
def collapseWs (l : List Char) : List Char := collapseWsCore l false

/-- `GDGParser.cleanText` (XML-feed parser lines 145-160): newlines to
spaces, whitespace runs collapsed, trimmed, and `" [content redacted]"`
appended when fewer than 10 characters remain. -/
def cleanText (text : String) : String :=
  let cleaned := text.data.map fun c => if c = '\n' then ' ' else c
  let cleaned := collapseWs cleaned
  let cleaned := trimL cleaned
  if cleaned.length < 10 then String.mk (cleaned ++ " [content redacted]".data)
  else String.mk cleaned

/-- A separator match of `/\s*\-\s*|\s*:\s*/` starting at the current
position: optional whitespace, then `-` or `:`, then greedily consumed
trailing whitespace.  Returns the rest of the input on a match.  (If the
leading whitespace is not followed by `-` or `:`, no alternative of the
pattern can match at this position.) -/
def trySep (l : List Char) : Option (List Char) :=
  match l.dropWhile isWs with
  | '-' :: r => some (r.dropWhile isWs)
  | ':' :: r => some (r.dropWhile isWs)
  | _ => none

/-- Scanner for `description.split(/\s*\-\s*|\s*:\s*/)`: leftmost separator
matches cut the string; characters outside separators accumulate into the
current part.  Every separator consumes at least the `-`/`:` character, so
a fuel of one more than the length never runs out. -/
def splitSepGo : Nat → List Char → List Char → List (List Char)
  | 0, l, acc => [acc.reverse ++ l]
  | _ + 1, [], acc => [acc.reverse]
  | fuel + 1, c :: rest, acc =>
    match trySep (c :: rest) with
    | some r => acc.reverse :: splitSepGo fuel r []
    | none => splitSepGo fuel rest (c :: acc)

/-- `description.split(/\s*\-\s*|\s*:\s*/)`. -/
def splitSep (l : List Char) : List (List Char) :=
  splitSepGo (l.length + 1) l []

/-- `GDGParser.generateOriginalText` (XML-feed parser lines 230-232). -/
def generateOriginalText (link : String) : String :=
  "Original text for " ++ link

/-- The entry built from one `<item>` by the body of the XML-feed
`parseGDGData` loop (lines 34-68): take title, description and link with
their `||` defaults; source is the link's domain, or the title when that
is empty; split the description on `-`/`:` separators into a from/to pair
(the tail parts joined with spaces), else synthesize a change from the
link. -/
def xmlItemEntry (host : String → Option String) (item : Item) : Entry :=
  let title := if jsTruthy item.title then item.title.getD ""
    else "Government Document"
  let description := item.description.getD ""
  let link := item.link.getD ""
  let domain := extractDomainFromUrl host link
  let source := if domain = "" then title else domain
  let changes : List Change :=
    if description ≠ "" then
      match splitSep description.data with
      | p0 :: p1 :: ps =>
        [ { cfrom := some (cleanText (String.mk p0))
          , cto := some (cleanText (String.mk (joinSp (p1 :: ps))))
          , ctype := none } ]
      | _ => []
    else []
  let changes :=
    if changes = [] ∧ link ≠ "" then
      let originalText := generateOriginalText link
      [ { cfrom := some originalText
        , cto := some (xmlCreateRedactedVersion originalText)
        , ctype := none } ]
    else changes
  { id := none, source := source, changes := changes }

/-- The item loop of the XML-feed `parseGDGData` (lines 31-74): iterate
while `processedEntries.length < maxEntries`, and store each item's entry
via `addEntry` when a change was produced (`entry.changes.length > 0`). -/
def parseXmlItems (host : String → Option String) :
    List Item → List Entry → List Entry
  | [], st => st
  | item :: rest, st =>
    if st.length < maxEntries then
      if (xmlItemEntry host item).changes ≠ [] then
        parseXmlItems host rest (addEntry st (xmlItemEntry host item))
      else parseXmlItems host rest st
    else st

/-- `GDGParser.getSampleData` of the XML-feed parser (lines 301-406): ten
bundled entries. -/
def getSampleDataXml : ParseResult :=
  { entries :=
    [ { id := some "GDG-2018-08-27-001"
      , source := "White House Press Release"
      , changes :=
        [ { cfrom := some "The administration acknowledges serious concerns about climate change impacts."
          , cto := some "The administration is monitoring environmental conditions."
          , ctype := none } ] }
    , { id := some "GDG-2018-08-27-002"
      , source := "Department of Defense Memo"
      , changes :=
        [ { cfrom := some "Military operations resulted in 24 civilian casualties in the region."
          , cto := some "Military operations in the region are under review."
          , ctype := none } ] }
    , { id := some "GDG-2018-08-27-003"
      , source := "CDC Health Advisory"
      , changes :=
        [ { cfrom := some "The outbreak has infected over 1,000 people across 12 states."
          , cto := some "Health officials are monitoring cases of the illness."
          , ctype := none } ] }
    , { id := some "GDG-2018-08-27-004"
      , source := "EPA Environmental Assessment"
      , changes :=
        [ { cfrom := some "Chemical levels in the water exceed federal safety standards by 300%."
          , cto := some "Water quality testing continues in affected areas."
          , ctype := none } ] }
    , { id := some "GDG-2018-08-27-005"
      , source := "Department of Justice Statement"
      , changes :=
        [ { cfrom := some "The investigation found evidence of systematic corruption at multiple levels."
          , cto := some "The investigation is ongoing and no conclusions have been reached."
          , ctype := none } ] }
    , { id := some "GDG-2018-08-27-006"
      , source := "Federal Reserve Economic Outlook"
      , changes :=
        [ { cfrom := some "Economic indicators suggest a significant recession is likely within 6 months."
          , cto := some "Economic conditions are being closely monitored."
          , ctype := none } ] }
    , { id := some "GDG-2018-08-27-007"
      , source := "Department of Education Report"
      , changes :=
        [ { cfrom := some "Test scores show a 15% decline in student performance nationwide."
          , cto := some "Educational assessment methods are being evaluated."
          , ctype := none } ] }
    , { id := some "GDG-2018-08-27-008"
      , source := "FDA Drug Safety Communication"
      , changes :=
        [ { cfrom := some "The medication has been linked to 37 deaths and over 200 severe adverse reactions."
          , cto := some "The medication's safety profile is under continued evaluation."
          , ctype := none } ] }
    , { id := some "GDG-2018-08-27-009"
      , source := "Department of Homeland Security Alert"
      , changes :=
        [ { cfrom := some "Critical infrastructure vulnerabilities have been exploited by foreign actors."
          , cto := some "Infrastructure security protocols are being updated."
          , ctype := none } ] }
    , { id := some "GDG-2018-08-27-010"
      , source := "Veterans Affairs Internal Memo"
      , changes :=
        [ { cfrom := some "Wait times for critical care have increased to an average of 47 days."
          , cto := some "Patient care scheduling procedures are being optimized."
          , ctype := none } ] } ] }

/-- `GDGParser.parseGDGData` of the XML-feed parser (lines 18-91): run the
item loop on the parsed items, then — even when no error occurred — discard
everything and return the sample data when fewer than 10 entries were
extracted. -/
def parseGDGDataXml (host : String → Option String) (st : List Entry)
    (items : List Item) : ParseResult :=
  if (parseXmlItems host items st).length < 10 then getSampleDataXml
  else { entries := parseXmlItems host items st }

/-! ### HTTP route handlers

Both the Express route `app.get('/api/gdelt')` (sketch-file server block)
and the serverless `exports.handler` (`src/unnamed/part_002`) are modelled
with oracles for their effectful steps: file read, network fetch, gzip
inflation and `JSON.parse`.  A step that would reject/throw is an
`Except.error` (carrying the error message) or `none`; the handlers catch
every failure and turn it into a status-500 JSON body with an `error`
field.  The parsed JSON payload type is abstract. -/

/-- A JSON response body: either a data payload or an object whose `error`
field holds the given message. -/
inductive RBody (D : Type) where
  | json (payload : D)
  | errJson (error : String)
deriving DecidableEq

/-- An HTTP response: status code plus JSON body. -/
structure HttpResponse (D : Type) where
  status : Nat
  body : RBody D
deriving DecidableEq

/-- The Express route `app.get('/api/gdelt')`: read the local JSON file
(`fs.readFile`, rejecting with an error message), `JSON.parse` it, and
answer `res.json(parsedData)`; any failure is caught and answered with
`res.status(500).json({ error: 'Failed to load data', details: ... })`. -/
def apiGdeltRoute {D : Type} (readFileResult : Except String String)
    (jsonParse : String → Option D) : HttpResponse D :=
  match readFileResult with
  | .error _ => { status := 500, body := .errJson "Failed to load data" }
  | .ok data =>
    match jsonParse data with
    | none => { status := 500, body := .errJson "Failed to load data" }
    | some parsedData => { status := 200, body := .json parsedData }

/-- The `fetch` response of the serverless handler: HTTP status metadata
plus the gzipped body bytes (abstract type `B`). -/
structure FetchResp (B : Type) where
  ok : Bool
  status : Nat
  statusText : String
  buffer : B

/-- The serverless `exports.handler` (`src/unnamed/part_002`): fetch the
remote gzipped feed (a network failure rejects with a message), throw when
`response.ok` is false, inflate with pako, `JSON.parse`, and return a
status-200 JSON body; every `throw` lands in the outer `catch`, which
returns status 500 with `{ error: error.message }`. -/
def gdeltLambdaHandler {B D : Type} (fetchResult : Except String (FetchResp B))
    (inflate : B → Option String) (jsonParse : String → Option D) :
    HttpResponse D :=
  match fetchResult with
  | .error msg => { status := 500, body := .errJson msg }
  | .ok response =>
    if !response.ok then
      { status := 500
      , body := .errJson
          ("Failed to fetch GDELT data: " ++ toString response.status ++ " "
            ++ response.statusText) }
    else
      match inflate response.buffer with
      | none => { status := 500, body := .errJson "Failed to decompress GDELT data" }
      | some decompressed =>
        match jsonParse decompressed with
        | none => { status := 500, body := .errJson "Failed to parse GDELT data" }
        | some data => { status := 200, body := .json data }

/-! ### Invariant predicates and helper lemmas -/

/-- A change whose `from` and `to` are present and nonempty after
trimming — the invariant the specification states for every kept change. -/
def goodChange (ch : Change) : Prop :=
  (∃ s, ch.cfrom = some s ∧ trimL s.data ≠ []) ∧
  (∃ s, ch.cto = some s ∧ trimL s.data ≠ [])

/-- The invariant of `processedEntries`: every stored entry has at least
one change, and every kept change is `goodChange`. -/
def entriesInvariant (es : List Entry) : Prop :=
  ∀ e ∈ es, e.changes ≠ [] ∧ ∀ ch ∈ e.changes, goodChange ch

/-- Every entry's changes all carry present `from` and `to` fields — the
normalized `Change` shape. -/
def changesPresent (es : List Entry) : Prop :=
  ∀ e ∈ es, ∀ ch ∈ e.changes, ch.cfrom.isSome = true ∧ ch.cto.isSome = true

/-- A token free of whitespace characters — the shape of every token
produced by `splitWs` and preserved by `redactWord`. -/
def wsFreeP (w : List Char) : Prop := ∀ c ∈ w, isWs c = false

/-- Shape of the tail of a `splitWs` result: all tokens are
whitespace-free, and only the final token may be empty.  Token lists of
this shape are recovered exactly by splitting their space-joined text. -/
def goodTail : List (List Char) → Prop
  | [] => True
  | [w] => wsFreeP w
  | w :: v :: rest => wsFreeP w ∧ w ≠ [] ∧ goodTail (v :: rest)

theorem validChange_good {ch : Change} (h : validChange ch = true) : goodChange ch := by
  obtain ⟨f, t, ty⟩ := ch
  cases f <;> cases t <;> simp_all [validChange, goodChange]

theorem validChange_isSome {ch : Change} (h : validChange ch = true) :
    ch.cfrom.isSome = true ∧ ch.cto.isSome = true := by
  obtain ⟨f, t, ty⟩ := ch
  cases f <;> cases t <;> simp_all [validChange]

/-- Every element of `addEntry st e` is an old element of `st` or the newly
filtered entry, whose changes are exactly the valid changes of `e` and are
nonempty. -/
theorem addEntry_mem {st : List Entry} {e x : Entry} (hx : x ∈ addEntry st e) :
    x ∈ st ∨ (x.changes = e.changes.filter validChange ∧ x.changes ≠ []) := by
  unfold addEntry at hx
  split_ifs at hx with h1 h2 h3
  · rcases List.mem_append.1 hx with h | h
    · exact Or.inl h
    · right
      rcases List.mem_singleton.1 h with rfl
      exact ⟨rfl, h3⟩
  all_goals exact Or.inl hx

theorem addEntry_length_le {st : List Entry} (e : Entry) (h : st.length ≤ maxEntries) :
    (addEntry st e).length ≤ maxEntries := by
  unfold addEntry
  split_ifs with h1 h2 h3
  · simp only [List.length_append, List.length_singleton]
    omega
  all_goals exact h

theorem addEntry_changesPresent {st : List Entry} {e : Entry}
    (h : changesPresent st) : changesPresent (addEntry st e) := by
  intro x hx
  rcases addEntry_mem hx with hold | ⟨hch, _⟩
  · exact h x hold
  · intro ch hc
    rw [hch] at hc
    exact validChange_isSome (List.of_mem_filter hc)

theorem processArticles_length_le (host : String → Option String)
    (articles : List Article) (st : List Entry) (h : st.length ≤ maxEntries) :
    (processArticles host articles st).length ≤ maxEntries := by
  induction articles generalizing st with
  | nil => simpa [processArticles] using h
  | cons a rest ih =>
    rw [processArticles]
    split_ifs with h1
    · cases htc : extractTextContent a
      · simpa [htc] using ih st h
      · simpa [htc] using ih _ (addEntry_length_le _ h)
    · exact h

theorem processArticles_changesPresent (host : String → Option String)
    (articles : List Article) (st : List Entry) (h : changesPresent st) :
    changesPresent (processArticles host articles st) := by
  induction articles generalizing st with
  | nil => simpa [processArticles] using h
  | cons a rest ih =>
    rw [processArticles]
    split_ifs with h1
    · cases htc : extractTextContent a
      · simpa [htc] using ih st h
      · simpa [htc] using ih _ (addEntry_changesPresent h)
    · exact h

theorem parseXmlItems_length_le (host : String → Option String)
    (items : List Item) (st : List Entry) (h : st.length ≤ maxEntries) :
    (parseXmlItems host items st).length ≤ maxEntries := by
  induction items generalizing st with
  | nil => simpa [parseXmlItems] using h
  | cons it rest ih =>
    rw [parseXmlItems]
    split_ifs with h1 h2
    · exact ih _ (addEntry_length_le _ h)
    · exact ih st h
    · exact h

theorem parseXmlItems_changesPresent (host : String → Option String)
    (items : List Item) (st : List Entry) (h : changesPresent st) :
    changesPresent (parseXmlItems host items st) := by
  induction items generalizing st with
  | nil => simpa [parseXmlItems] using h
  | cons it rest ih =>
    rw [parseXmlItems]
    split_ifs with h1 h2
    · exact ih _ (addEntry_changesPresent h)
    · exact ih st h
    · exact h

/-! ### Claim theorems -/

/-- C2: for every input string, the paraphrase-variant
`createRedactedVersion` of the XML-feed parser returns the string with
every word-bounded percentage (digits, optionally with a decimal fraction,
followed by `%`) replaced by `'a percentage'`, then every remaining
word-bounded digit sequence replaced by `'several'`, then each of the
eight listed location names (case-insensitively) replaced by
`'the region'`, then each of the eight listed strong words replaced by its
fixed weaker counterpart, in that order. -/
theorem xmlCreateRedactedVersion_paraphrase (text : String) :
    xmlCreateRedactedVersion text = paraphraseSpec text := rfl

/-- C3: the feed adapter's `parseGDGData` returns the bundled sample data
whenever the response is null/undefined or lacks an articles array, and
otherwise returns the object whose entries are derived from the input
articles by the processing loop; the embedding of the `try` body is a
total function (the only throwing step, the `URL` constructor, is caught
inside `formatUrl`), so no exception reaches the caller. -/
theorem parseGDGData_fallback (host : String → Option String) (st : List Entry)
    (data : Option ArticlesObj) :
    ((data = none ∨ data = some { articles := none }) →
      parseGDGData host st data = getSampleData) ∧
    (∀ articles, data = some { articles := some articles } →
      parseGDGData host st data = { entries := processArticles host articles st }) := by
  constructor
  · rintro (rfl | rfl) <;> rfl
  · rintro articles rfl
    rfl

/-- Witness for C3 at a concrete input: a null response yields the sample
data. -/
theorem parseGDGData_fallback_witness :
    parseGDGData (fun _ => none) [] none = getSampleData :=
  (parseGDGData_fallback (fun _ => none) [] none).1 (Or.inl rfl)

/-- C4: `addEntry` filters out changes whose `from` or `to` is missing or
trims to the empty string and drops entries left with no valid change, so
it preserves the invariant that every stored entry has at least one change
and every kept change has nonempty trimmed `from` and `to`. -/
theorem addEntry_entriesInvariant (st : List Entry) (e : Entry)
    (h : entriesInvariant st) : entriesInvariant (addEntry st e) := by
  intro x hx
  rcases addEntry_mem hx with hold | ⟨hch, hne⟩
  · exact h x hold
  · refine ⟨hne, ?_⟩
    intro ch hc
    rw [hch] at hc
    exact validChange_good (List.of_mem_filter hc)

/-- Witness for C4 at a concrete input: from two changes, one with an
empty `to`, `addEntry` keeps exactly the valid one. -/
theorem addEntry_entriesInvariant_witness :
    entriesInvariant (addEntry []
      { id := none
      , source := "Sample Source"
      , changes :=
        [ { cfrom := some "from text", cto := some "   ", ctype := none }
        , { cfrom := some "from text", cto := some "to text", ctype := none } ] }) :=
  addEntry_entriesInvariant [] _ (by simp [entriesInvariant])

/-- C5: every entry of a non-fallback `parseGDGData` result conforms to
the normalized shape, in the JSON-feed (`gdg_parser.js`) variant and the
XML-feed (`part_001`) variant alike: `source` is a string by the `Entry`
structure, and every change of every entry carries present `from` and `to`
fields (`changesPresent`), provided the prior state does.  The middle
conjunct is the XML loop's entry list (exactly the entries of its
non-fallback result); the last covers every object the XML variant
returns, fallback included. -/
theorem parseGDGData_changes_present :
    (∀ (host : String → Option String) (st : List Entry) (articles : List Article),
      changesPresent st →
      changesPresent (parseGDGData host st (some { articles := some articles })).entries) ∧
    (∀ (host : String → Option String) (st : List Entry) (items : List Item),
      changesPresent st → changesPresent (parseXmlItems host items st)) ∧
    (∀ (host : String → Option String) (st : List Entry) (items : List Item),
      changesPresent st → changesPresent (parseGDGDataXml host st items).entries) := by
  refine ⟨fun host st articles h => processArticles_changesPresent host articles st h,
    fun host st items h => parseXmlItems_changesPresent host items st h, ?_⟩
  intro host st items h
  unfold parseGDGDataXml
  split_ifs with h10
  · show changesPresent getSampleDataXml.entries
    unfold changesPresent
    decide
  · exact parseXmlItems_changesPresent host items st h

/-- Witness for C5 at concrete inputs: one JSON article with a long title,
and one XML item whose description splits into a from/to pair. -/
theorem parseGDGData_changes_present_witness :
    changesPresent (parseGDGData (fun _ => none) []
      (some ⟨some [⟨none, none, none, some "A headline about several things", none, none⟩]⟩)).entries ∧
    changesPresent (parseXmlItems (fun _ => none)
      [⟨some "Title", some "From part - to part two", some "http://example.com"⟩] []) :=
  ⟨parseGDGData_changes_present.1 (fun _ => none) [] _ (by simp [changesPresent]),
    parseGDGData_changes_present.2.1 (fun _ => none) []
      [⟨some "Title", some "From part - to part two", some "http://example.com"⟩]
      (by simp [changesPresent])⟩

/-- C6: `extractSource` follows the claimed fallback chain: the truthy
`source` field; otherwise the hostname of `url` with a leading `www.`
removed, or the raw url when URL parsing fails; otherwise the truthy
`domain` field; otherwise `"News Article"` ("present" is the JavaScript
truthiness test the code performs). -/
theorem extractSource_fallback_chain (host : String → Option String)
    (article : Article) :
    extractSource host article = extractSourceSpec host article := rfl

/-- C7: both HTTP routes return JSON under all outcomes: a successful
read/fetch-inflate-parse chain yields status 200 with the parsed data as
the JSON body, and every failure is caught and yields status 500 with a
JSON body whose `error` field holds a message; the handlers are total, so
no exception propagates. -/
theorem httpRoutes_json_outcomes (B D : Type)
    (readFileResult : Except String String) (jsonParse : String → Option D)
    (fetchResult : Except String (FetchResp B)) (inflate : B → Option String)
    (jsonParseRemote : String → Option D) :
    ((∃ payload, apiGdeltRoute readFileResult jsonParse =
        { status := 200, body := RBody.json payload }) ∨
      (∃ msg, apiGdeltRoute readFileResult jsonParse =
        { status := 500, body := RBody.errJson msg })) ∧
    ((∃ payload, gdeltLambdaHandler fetchResult inflate jsonParseRemote =
        { status := 200, body := RBody.json payload }) ∨
      (∃ msg, gdeltLambdaHandler fetchResult inflate jsonParseRemote =
        { status := 500, body := RBody.errJson msg })) ∧
    (∀ s payload, readFileResult = Except.ok s → jsonParse s = some payload →
      apiGdeltRoute readFileResult jsonParse =
        { status := 200, body := RBody.json payload }) ∧
    (∀ r s payload, fetchResult = Except.ok r → r.ok = true →
      inflate r.buffer = some s → jsonParseRemote s = some payload →
      gdeltLambdaHandler fetchResult inflate jsonParseRemote =
        { status := 200, body := RBody.json payload }) := by
  refine ⟨?_, ?_, ?_, ?_⟩
  · cases readFileResult with
    | error e => exact Or.inr ⟨"Failed to load data", rfl⟩
    | ok s =>
      cases hp : jsonParse s with
      | none => exact Or.inr ⟨"Failed to load data", by simp [apiGdeltRoute, hp]⟩
      | some v => exact Or.inl ⟨v, by simp [apiGdeltRoute, hp]⟩
  · cases fetchResult with
    | error m => exact Or.inr ⟨m, rfl⟩
    | ok r =>
      cases hok : r.ok with
      | false =>
        exact Or.inr ⟨"Failed to fetch GDELT data: " ++ toString r.status ++ " "
          ++ r.statusText, by simp [gdeltLambdaHandler, hok]⟩
      | true =>
        cases hi : inflate r.buffer with
        | none =>
          exact Or.inr ⟨"Failed to decompress GDELT data",
            by simp [gdeltLambdaHandler, hok, hi]⟩
        | some s =>
          cases hp : jsonParseRemote s with
          | none =>
            exact Or.inr ⟨"Failed to parse GDELT data",
              by simp [gdeltLambdaHandler, hok, hi, hp]⟩
          | some v => exact Or.inl ⟨v, by simp [gdeltLambdaHandler, hok, hi, hp]⟩
  · rintro s payload rfl hp
    simp [apiGdeltRoute, hp]
  · rintro r s payload rfl hok hi hp
    simp [gdeltLambdaHandler, hok, hi, hp]

/-- Witness for C7 at concrete oracles: a successful local read and parse
answers 200 with the parsed payload. -/
theorem httpRoutes_json_outcomes_witness :
    apiGdeltRoute (Except.ok "raw") (fun _ => some 7) =
      { status := 200, body := RBody.json 7 } :=
  (httpRoutes_json_outcomes Unit Nat (Except.ok "raw") (fun _ => some 7)
    (Except.error "network down") (fun _ => none) (fun _ => none)).2.2.1 "raw" 7 rfl rfl

/-- C8: the XML-feed `parseGDGData` discards everything and returns the
full bundled sample data whenever fewer than 10 entries were extracted —
even without an error — so every non-fallback result holds at least 10
entries. -/
theorem parseGDGDataXml_fallback_min10 (host : String → Option String)
    (st : List Entry) (items : List Item) :
    ((parseXmlItems host items st).length < 10 →
      parseGDGDataXml host st items = getSampleDataXml) ∧
    (parseGDGDataXml host st items = getSampleDataXml ∨
      10 ≤ (parseGDGDataXml host st items).entries.length) := by
  unfold parseGDGDataXml
  constructor
  · intro h
    rw [if_pos h]
  · split_ifs with h
    · exact Or.inl rfl
    · exact Or.inr (by simpa using Nat.le_of_not_lt h)

/-- Witness for C8 at a concrete input: an empty feed extracts 0 entries
and falls back to the sample data. -/
theorem parseGDGDataXml_fallback_min10_witness :
    parseGDGDataXml (fun _ => none) [] [] = getSampleDataXml :=
  (parseGDGDataXml_fallback_min10 (fun _ => none) [] []).1 (by decide)

/-- C9: the number of processed entries never exceeds `maxEntries = 100`:
`addEntry` pushes only below the bound, the parse loops stop consuming
once it is reached, and both parsers (including their sample-data
fallbacks of 2 and 10 entries) return at most 100 entries whenever the
prior state is within the bound. -/
theorem processedEntries_le_maxEntries :
    (∀ (st : List Entry) (e : Entry), st.length ≤ 100 →
      (addEntry st e).length ≤ 100) ∧
    (∀ (host : String → Option String) (st : List Entry) (data : Option ArticlesObj),
      st.length ≤ 100 → (parseGDGData host st data).entries.length ≤ 100) ∧
    (∀ (host : String → Option String) (st : List Entry) (items : List Item),
      st.length ≤ 100 → (parseGDGDataXml host st items).entries.length ≤ 100) := by
  refine ⟨fun st e h => addEntry_length_le e h, ?_, ?_⟩
  · intro host st data h
    match data with
    | none => exact (by decide : getSampleData.entries.length ≤ 100)
    | some { articles := none } => exact (by decide : getSampleData.entries.length ≤ 100)
    | some { articles := some articles } =>
      exact processArticles_length_le host articles st h
  · intro host st items h
    unfold parseGDGDataXml
    split_ifs with h10
    · exact (by decide : getSampleDataXml.entries.length ≤ 100)
    · exact parseXmlItems_length_le host items st h

/-- Witness for C9 at concrete inputs. -/
theorem processedEntries_le_maxEntries_witness :
    (addEntry [] { id := none, source := "s", changes := [] }).length ≤ 100 ∧
    (parseGDGData (fun _ => none) [] none).entries.length ≤ 100 :=
  ⟨processedEntries_le_maxEntries.1 [] _ (by decide),
    processedEntries_le_maxEntries.2.1 (fun _ => none) [] none (by decide)⟩

/-! ### Split/join round-trip lemmas for the placeholder redaction -/

theorem splitWsCore_shape (l : List Char) :
    (∀ acc, (∀ c ∈ acc, isWs c = false) →
      ∃ t rest, splitWsCore l (some acc) = (acc.reverse ++ t) :: rest ∧
        wsFreeP t ∧ goodTail rest) ∧
    (splitWsCore l none ≠ [] ∧ goodTail (splitWsCore l none)) := by
  induction l with
  | nil =>
    refine ⟨fun acc _ => ⟨[], [], by simp [splitWsCore], ?_, trivial⟩, ?_, ?_⟩
    · intro c hc
      exact absurd hc (List.not_mem_nil c)
    · simp [splitWsCore]
    · show goodTail [[]]
      intro c hc
      exact absurd hc (List.not_mem_nil c)
  | cons c rest ih =>
    constructor
    · intro acc hacc
      by_cases hc : isWs c
      · refine ⟨[], splitWsCore rest none, by simp [splitWsCore, hc], ?_, ih.2.2⟩
        intro x hx
        exact absurd hx (List.not_mem_nil x)
      · have hcf : isWs c = false := by simpa using hc
        obtain ⟨t, rest', heq, hts, hgt⟩ := ih.1 (c :: acc) (by
          intro x hx
          rcases List.mem_cons.1 hx with rfl | hx
          · exact hcf
          · exact hacc x hx)
        refine ⟨c :: t, rest', ?_, ?_, hgt⟩
        · rw [show splitWsCore (c :: rest) (some acc) = splitWsCore rest (some (c :: acc))
            from by simp [splitWsCore, hc], heq]
          simp
        · intro x hx
          rcases List.mem_cons.1 hx with rfl | hx
          · exact hcf
          · exact hts x hx
    · by_cases hc : isWs c
      · simpa [splitWsCore, hc] using ih.2
      · have hcf : isWs c = false := by simpa using hc
        obtain ⟨t, rest', heq, hts, hgt⟩ := ih.1 [c] (by
          intro x hx
          rcases List.mem_singleton.1 hx with rfl
          exact hcf)
        have hnone : splitWsCore (c :: rest) none = (c :: t) :: rest' := by
          rw [show splitWsCore (c :: rest) none = splitWsCore rest (some [c])
            from by simp [splitWsCore, hc], heq]
          simp
        rw [hnone]
        have hwct : wsFreeP (c :: t) := by
          intro x hx
          rcases List.mem_cons.1 hx with rfl | hx
          · exact hcf
          · exact hts x hx
        refine ⟨List.cons_ne_nil _ _, ?_⟩
        cases rest' with
        | nil => exact hwct
        | cons v r2 => exact ⟨hwct, List.cons_ne_nil c t, hgt⟩

theorem splitWs_shape (l : List Char) :
    ∃ w rest, splitWs l = w :: rest ∧ wsFreeP w ∧ goodTail rest := by
  obtain ⟨t, rest, heq, hts, hgt⟩ :=
    (splitWsCore_shape l).1 [] (fun c hc => absurd hc (List.not_mem_nil c))
  exact ⟨t, rest, by simpa using heq, hts, hgt⟩

theorem splitWsCore_wsfree : ∀ w : List Char, wsFreeP w → ∀ acc : List Char,
    splitWsCore w (some acc) = [acc.reverse ++ w] := by
  intro w
  induction w with
  | nil => intro _ acc; simp [splitWsCore]
  | cons c w' ih =>
    intro hw acc
    have hc : isWs c = false := hw c (List.mem_cons_self c w')
    have hw' : wsFreeP w' := fun x hx => hw x (List.mem_cons_of_mem c hx)
    rw [show splitWsCore (c :: w') (some acc) = splitWsCore w' (some (c :: acc))
      from by simp [splitWsCore, hc], ih hw' (c :: acc)]
    simp

theorem splitWsCore_break : ∀ w : List Char, wsFreeP w → ∀ acc rest : List Char,
    splitWsCore (w ++ ' ' :: rest) (some acc) =
      (acc.reverse ++ w) :: splitWsCore rest none := by
  intro w
  induction w with
  | nil =>
    intro _ acc rest
    simp [splitWsCore, show isWs ' ' = true from rfl]
  | cons c w' ih =>
    intro hw acc rest
    have hc : isWs c = false := hw c (List.mem_cons_self c w')
    have hw' : wsFreeP w' := fun x hx => hw x (List.mem_cons_of_mem c hx)
    rw [show splitWsCore ((c :: w') ++ ' ' :: rest) (some acc) =
        splitWsCore (w' ++ ' ' :: rest) (some (c :: acc))
      from by simp [splitWsCore, hc], ih hw' (c :: acc) rest]
    simp

theorem splitWsCore_none_cons {c : Char} (hc : isWs c = false) (l : List Char) :
    splitWsCore (c :: l) none = splitWsCore (c :: l) (some []) := by
  simp [splitWsCore, hc]

/-- Splitting the space-join of a token list of the `splitWs` output shape
recovers exactly the token list. -/
theorem splitWs_joinSp (rest : List (List Char)) : ∀ w : List Char, wsFreeP w →
    goodTail rest → splitWs (joinSp (w :: rest)) = w :: rest := by
  induction rest with
  | nil =>
    intro w hw _
    show splitWsCore (joinSp [w]) (some []) = [w]
    rw [show joinSp [w] = w from rfl, splitWsCore_wsfree w hw []]
    simp
  | cons u rest2 ih =>
    intro w hw hgt
    show splitWsCore (joinSp (w :: u :: rest2)) (some []) = w :: u :: rest2
    rw [show joinSp (w :: u :: rest2) = w ++ ' ' :: joinSp (u :: rest2) from rfl,
      splitWsCore_break w hw [] (joinSp (u :: rest2))]
    simp only [List.reverse_nil, List.nil_append]
    congr 1
    cases rest2 with
    | nil =>
      cases u with
      | nil => simp [joinSp, splitWsCore]
      | cons d u' =>
        have hu : wsFreeP (d :: u') := hgt
        rw [show joinSp [d :: u'] = d :: u' from rfl,
          splitWsCore_none_cons (hu d (List.mem_cons_self d u')) u',
          splitWsCore_wsfree (d :: u') hu []]
        simp
    | cons v r2 =>
      obtain ⟨hu, hune, hgt2⟩ : wsFreeP u ∧ u ≠ [] ∧ goodTail (v :: r2) := hgt
      obtain ⟨d, u', rfl⟩ := List.exists_cons_of_ne_nil hune
      have hstep : joinSp ((d :: u') :: v :: r2) = d :: (u' ++ ' ' :: joinSp (v :: r2)) :=
        rfl
      rw [hstep, show (d :: (u' ++ ' ' :: joinSp (v :: r2))) =
        ((d :: u') ++ ' ' :: joinSp (v :: r2)) from rfl]
      rw [show ((d :: u') ++ ' ' :: joinSp (v :: r2)) =
        joinSp ((d :: u') :: v :: r2) from rfl]
      have hihb := ih (d :: u') hu hgt2
      rw [show splitWs (joinSp ((d :: u') :: v :: r2)) =
          splitWsCore (joinSp ((d :: u') :: v :: r2)) (some []) from rfl] at hihb
      rw [show joinSp ((d :: u') :: v :: r2) = d :: (u' ++ ' ' :: joinSp (v :: r2))
        from rfl] at hihb ⊢
      rw [splitWsCore_none_cons (hu d (List.mem_cons_self d u')) _]
      exact hihb

theorem redactWord_wsFree {w : List Char} (hw : wsFreeP w) :
    wsFreeP (redactWord w) := by
  unfold redactWord
  split_ifs
  · unfold wsFreeP
    decide
  · exact hw

theorem redactWord_ne_nil {w : List Char} (hw : w ≠ []) : redactWord w ≠ [] := by
  unfold redactWord
  split_ifs
  · decide
  · exact hw

theorem goodTail_map {rest : List (List Char)} (h : goodTail rest) :
    goodTail (rest.map redactWord) := by
  induction rest with
  | nil => trivial
  | cons u rest2 ih =>
    cases rest2 with
    | nil => exact redactWord_wsFree h
    | cons v r2 =>
      obtain ⟨hu, hune, hgt⟩ := h
      exact ⟨redactWord_wsFree hu, redactWord_ne_nil hune, ih hgt⟩

theorem redactWord_idem (w : List Char) :
    redactWord (redactWord w) = redactWord w := by
  unfold redactWord
  by_cases h : sensitiveMatch w
  · simp [h, show sensitiveMatch "[REDACTED]".data = false from by decide]
  · simp [h]

theorem map_redactWord_idem (ts : List (List Char)) :
    (ts.map redactWord).map redactWord = ts.map redactWord := by
  induction ts with
  | nil => rfl
  | cons w ts ih => simp [redactWord_idem, ih]

/-- A second pass of the split/map/join pipeline is the identity on its
own output. -/
theorem redactSpec_idem (l : List Char) : redactSpec (redactSpec l) = redactSpec l := by
  obtain ⟨w, rest, heq, hw, hgt⟩ := splitWs_shape l
  show joinSp ((splitWs (redactSpec l)).map redactWord) = redactSpec l
  have hinner : redactSpec l = joinSp (redactWord w :: rest.map redactWord) := by
    unfold redactSpec
    rw [heq]
    rfl
  rw [hinner, splitWs_joinSp (rest.map redactWord) (redactWord w)
    (redactWord_wsFree hw) (goodTail_map hgt)]
  rw [show (redactWord w :: rest.map redactWord) = (w :: rest).map redactWord from rfl,
    map_redactWord_idem]

/-- On a nonempty input the pipeline output is nonempty: the split has
either a nonempty first token or at least two tokens, and in both cases
the space-join is nonempty. -/
theorem redactSpec_ne_nil (c : Char) (l : List Char) : redactSpec (c :: l) ≠ [] := by
  unfold redactSpec
  show joinSp ((splitWsCore (c :: l) (some [])).map redactWord) ≠ []
  by_cases hc : isWs c
  · have h1 : splitWsCore (c :: l) (some []) = [] :: splitWsCore l none := by
      simp [splitWsCore, hc]
    obtain ⟨x, xs, hxx⟩ := List.exists_cons_of_ne_nil ((splitWsCore_shape l).2).1
    rw [h1, hxx]
    simp [joinSp]
  · have hcf : isWs c = false := by simpa using hc
    obtain ⟨t, rest', heq, _, _⟩ := (splitWsCore_shape l).1 [c] (by
      intro x hx
      rcases List.mem_singleton.1 hx with rfl
      exact hcf)
    have h1 : splitWsCore (c :: l) (some []) = (c :: t) :: rest' := by
      rw [show splitWsCore (c :: l) (some []) = splitWsCore l (some [c])
        from by simp [splitWsCore, hc], heq]
      simp
    rw [h1]
    cases rest' with
    | nil => simpa [joinSp] using redactWord_ne_nil (List.cons_ne_nil c t)
    | cons r rs => simp [joinSp]

theorem string_empty_iff (s : String) : s = "" ↔ s.data = [] := by
  constructor
  · intro h
    rw [h]
  · intro h
    cases s
    simp_all

theorem mk_redactSpec_ne_empty {text : String} (h : text ≠ "") :
    String.mk (redactSpec text.data) ≠ "" := by
  intro habs
  obtain ⟨c, l, hcl⟩ := List.exists_cons_of_ne_nil
    (fun hd => h ((string_empty_iff text).2 hd))
  have : redactSpec text.data = [] := (string_empty_iff _).1 habs
  rw [hcl] at this
  exact redactSpec_ne_nil c l this

/-- C1 (amended): the placeholder-variant `createRedactedVersion` of
`gdg_parser.js` maps every input string to its whitespace-split tokens,
each replaced by `[REDACTED]` exactly when it matches one of the eleven
sensitive patterns, rejoined with single spaces (`redactSpec`); the
standalone sketch-file copy does the same for every nonempty string, but
maps the empty string to `'Information redacted'` instead. -/
theorem placeholderRedaction_spec :
    (∀ text : String, createRedactedVersion text = String.mk (redactSpec text.data)) ∧
    (∀ text : String, text ≠ "" →
      sketchCreateRedactedVersion text = String.mk (redactSpec text.data)) := by
  constructor
  · intro text
    by_cases h : text = ""
    · subst h
      decide
    · simp [createRedactedVersion, redactSpec, h]
  · intro text h
    simp [sketchCreateRedactedVersion, redactSpec, h]

/-- Witness for C1 at a concrete input. -/
theorem placeholderRedaction_spec_witness :
    sketchCreateRedactedVersion "secret plan" = String.mk (redactSpec "secret plan".data) :=
  placeholderRedaction_spec.2 "secret plan" (by decide)

/-- C1 counterexample: on the empty string the sketch-file variant returns
`'Information redacted'`, while the claimed split/map/join description
yields the empty string, so the claim as stated fails for that variant. -/
theorem sketchRedaction_empty_counterexample :
    sketchCreateRedactedVersion "" = "Information redacted" ∧
    String.mk (redactSpec "".data) = "" ∧
    sketchCreateRedactedVersion "" ≠ String.mk (redactSpec "".data) := by
  refine ⟨by decide, by decide, by decide⟩

/-- C10: the placeholder redaction is idempotent, for the `gdg_parser.js`
variant and for the sketch-file variant alike: the output is already
whitespace-normalized, splitting it recovers exactly the emitted tokens,
and neither `[REDACTED]` nor any token left unchanged matches a sensitive
pattern on the second pass. -/
theorem createRedactedVersion_idem :
    (∀ text : String, createRedactedVersion (createRedactedVersion text) =
      createRedactedVersion text) ∧
    (∀ text : String, sketchCreateRedactedVersion (sketchCreateRedactedVersion text) =
      sketchCreateRedactedVersion text) := by
  have hpipe : ∀ text : String, text ≠ "" →
      String.mk (redactSpec (String.mk (redactSpec text.data)).data) =
        String.mk (redactSpec text.data) := by
    intro text _
    exact congrArg String.mk (redactSpec_idem text.data)
  constructor
  · intro text
    by_cases h : text = ""
    · subst h
      decide
    · have h1 : createRedactedVersion text = String.mk (redactSpec text.data) := by
        simp [createRedactedVersion, redactSpec, h]
      have h2 : String.mk (redactSpec text.data) ≠ "" := mk_redactSpec_ne_empty h
      rw [h1]
      calc createRedactedVersion (String.mk (redactSpec text.data))
        = String.mk (redactSpec (String.mk (redactSpec text.data)).data) := by
            simp only [createRedactedVersion]
            rw [if_neg h2]
            rfl
        _ = String.mk (redactSpec text.data) := hpipe text h
  · intro text
    by_cases h : text = ""
    · subst h
      decide
    · have h1 : sketchCreateRedactedVersion text = String.mk (redactSpec text.data) := by
        simp [sketchCreateRedactedVersion, redactSpec, h]
      have h2 : String.mk (redactSpec text.data) ≠ "" := mk_redactSpec_ne_empty h
      rw [h1]
      calc sketchCreateRedactedVersion (String.mk (redactSpec text.data))
        = String.mk (redactSpec (String.mk (redactSpec text.data)).data) := by
            simp only [sketchCreateRedactedVersion]
            rw [if_neg h2]
            rfl
        _ = String.mk (redactSpec text.data) := hpipe text h
